import Mathlib

/-!
Verification of the mutual-fund analytics backend (kreditbee repository).

This file shallowly embeds the core algorithms of the repository and proves
properties stated in its specification:

* the three-bucket token-bucket rate limiter (`src/src/utils/rateLimiter.js`,
  configuration defaults from the config module);
* the analytics engine: percentiles, max drawdown, rolling returns and the
  sufficiency test (`src/src/services/analyticsService.js`);
* upstream response normalization (`normalizeSchemeData` in the MF API client);
* the backfill orchestrator and its sync-state transitions
  (`src/src/services/backfillService.js`, `src/src/dao/syncStateDao.js`);
* the fund-ranking query ordering (`rankByMetric` in `src/src/dao/fundsDao.js`)
  and the response formatting of `src/src/routes/funds.js`.

Conventions: JavaScript numbers are modelled as exact rationals (ℚ); epoch
milliseconds and epoch days as ℕ; fallible lookups as `Option`; the fetch of
the upstream API as an `Except String` oracle.
-/

/-! ### Rate limiter: data and per-bucket check

Mirrors `TOKEN_BUCKET_LUA` / `checkBucketUpstash` in `src/src/utils/rateLimiter.js`.
Both backends implement the same read-refill-consume-write step; we embed it once.
Token counts are rationals (the stored value is a float), times are epoch ms.
-/

/-- One bucket's configuration (`config.rateLimiting.*` in the config module). -/
structure RateCfg where
  capacity : ℕ
  refillRate : ℕ
  intervalMs : ℕ

/-- Persisted bucket state: the Redis hash `{tokens, last_refill}`. -/
structure Bucket where
  tokens : ℚ
  lastRefill : ℕ
deriving DecidableEq

/-- `tokensToAdd = floor(elapsed / intervalMs * refillRate)` with
`elapsed = currentTimeMs - lastRefill`. -/
def refillAmount (cfg : RateCfg) (lastRefill t : ℕ) : ℤ :=
  Int.floor ((((t : ℚ) - (lastRefill : ℚ)) / (cfg.intervalMs : ℚ)) * (cfg.refillRate : ℚ))

/-- The refill phase: when `tokensToAdd > 0`, cap at capacity and advance
`last_refill` to the current time; otherwise leave the bucket untouched. -/
def refillBucket (cfg : RateCfg) (b : Bucket) (t : ℕ) : Bucket :=
  let add := refillAmount cfg b.lastRefill t
  if 0 < add then ⟨min (cfg.capacity : ℚ) (b.tokens + (add : ℚ)), t⟩ else b

/-- Result of one bucket check (`{allowed, tokensRemaining, waitTimeMs}`). -/
structure CheckResult where
  allowed : Bool
  tokensRemaining : ℚ
  waitTimeMs : ℤ
deriving DecidableEq

/-- The atomic read-refill-consume-write step for one bucket, requesting one
token.  On denial the wait is `ceil((1 - tokens) / refillRate * intervalMs)`. -/
def checkBucket (cfg : RateCfg) (b : Bucket) (t : ℕ) : Bucket × CheckResult :=
  let b1 := refillBucket cfg b t
  if 1 ≤ b1.tokens then
    (⟨b1.tokens - 1, b1.lastRefill⟩, ⟨true, b1.tokens - 1, 0⟩)
  else
    (b1, ⟨false, b1.tokens,
      Int.ceil (((1 - b1.tokens) / (cfg.refillRate : ℚ)) * (cfg.intervalMs : ℚ))⟩)

/-- A missing bucket key initializes to `tokens = capacity, last_refill = now`. -/
def checkBucketInit (cfg : RateCfg) (ob : Option Bucket) (t : ℕ) : Bucket × CheckResult :=
  checkBucket cfg (ob.getD ⟨(cfg.capacity : ℚ), t⟩) t

/-- Number of `allowed = true` results over a sequence of accesses to a single
bucket, starting from a (possibly missing) stored state. -/
def runBucketCount (cfg : RateCfg) (ob : Option Bucket) : List ℕ → ℕ
  | [] => 0
  | t :: ts =>
    let r := checkBucketInit cfg ob t
    (if r.2.allowed then 1 else 0) + runBucketCount cfg (some r.1) ts

/-- Same counter starting from a present bucket state. -/
def runCountB (cfg : RateCfg) (b : Bucket) : List ℕ → ℕ
  | [] => 0
  | t :: ts =>
    let r := checkBucket cfg b t
    (if r.2.allowed then 1 else 0) + runCountB cfg r.1 ts

/-- Default per-second bucket: capacity 2, refill 2 per 1000 ms. -/
def perSecondCfg : RateCfg := ⟨2, 2, 1000⟩

/-- Default per-minute bucket: capacity 50, refill 50 per 60000 ms. -/
def perMinuteCfg : RateCfg := ⟨50, 50, 60000⟩

/-- Default per-hour bucket: capacity 300, refill 300 per 3600000 ms. -/
def perHourCfg : RateCfg := ⟨300, 300, 3600000⟩

/-! ### Arithmetic facts about `refillAmount` -/

lemma refillAmount_mono (cfg : RateCfg) (lr : ℕ) {x y : ℕ} (h : x ≤ y) :
    refillAmount cfg lr x ≤ refillAmount cfg lr y := by
  apply Int.floor_mono
  rw [div_eq_mul_inv, div_eq_mul_inv]
  have hxy : ((x : ℚ) - lr) ≤ ((y : ℚ) - lr) := by
    have hc : (x : ℚ) ≤ y := by exact_mod_cast h
    linarith
  have h1 := mul_le_mul_of_nonneg_right hxy
    (by positivity : (0 : ℚ) ≤ ((cfg.intervalMs : ℚ))⁻¹)
  exact mul_le_mul_of_nonneg_right h1 (by positivity)

lemma refillAmount_superadd (cfg : RateCfg) (lr t x : ℕ) :
    refillAmount cfg t x + refillAmount cfg lr t ≤ refillAmount cfg lr x := by
  have h1 := Int.floor_le ((((x : ℚ) - t) / cfg.intervalMs) * cfg.refillRate)
  have h2 := Int.floor_le ((((t : ℚ) - lr) / cfg.intervalMs) * cfg.refillRate)
  simp only [refillAmount]
  rw [Int.le_floor]
  push_cast
  have hsplit : (((x : ℚ) - lr) / cfg.intervalMs) * cfg.refillRate
      = (((x : ℚ) - t) / cfg.intervalMs) * cfg.refillRate
        + (((t : ℚ) - lr) / cfg.intervalMs) * cfg.refillRate := by
    rw [div_eq_mul_inv, div_eq_mul_inv, div_eq_mul_inv]
    ring
  rw [hsplit]
  exact add_le_add h1 h2

lemma refillAmount_subadd (cfg : RateCfg) (lr t x : ℕ) :
    refillAmount cfg lr x ≤ refillAmount cfg lr t + refillAmount cfg t x + 1 := by
  have h1 := Int.lt_floor_add_one ((((t : ℚ) - lr) / cfg.intervalMs) * cfg.refillRate)
  have h2 := Int.lt_floor_add_one ((((x : ℚ) - t) / cfg.intervalMs) * cfg.refillRate)
  simp only [refillAmount]
  have hlt : (((x : ℚ) - lr) / cfg.intervalMs) * cfg.refillRate
      < ((Int.floor ((((t : ℚ) - lr) / cfg.intervalMs) * cfg.refillRate)
          + Int.floor ((((x : ℚ) - t) / cfg.intervalMs) * cfg.refillRate) + 2 : ℤ) : ℚ) := by
    have hsplit : (((x : ℚ) - lr) / cfg.intervalMs) * cfg.refillRate
        = (((t : ℚ) - lr) / cfg.intervalMs) * cfg.refillRate
          + (((x : ℚ) - t) / cfg.intervalMs) * cfg.refillRate := by
      rw [div_eq_mul_inv, div_eq_mul_inv, div_eq_mul_inv]
      ring
    rw [hsplit]
    push_cast
    linarith
  have := Int.floor_lt.2 hlt
  omega

lemma refillAmount_nonneg (cfg : RateCfg) {lr x : ℕ} (h : lr ≤ x) :
    0 ≤ refillAmount cfg lr x := by
  apply Int.floor_nonneg.2
  have hc : (lr : ℚ) ≤ x := by exact_mod_cast h
  have hnum : (0 : ℚ) ≤ (x : ℚ) - lr := by linarith
  positivity

lemma refillAmount_self (cfg : RateCfg) (t : ℕ) : refillAmount cfg t t = 0 := by
  simp [refillAmount]

lemma refillAmount_lt_rate (cfg : RateCfg) (hr : 0 < cfg.refillRate)
    (hI : 0 < cfg.intervalMs) {t x : ℕ} (h : x < t + cfg.intervalMs) :
    refillAmount cfg t x ≤ (cfg.refillRate : ℤ) - 1 := by
  have hlt : (((x : ℚ) - t) / cfg.intervalMs) * cfg.refillRate < ((cfg.refillRate : ℤ) : ℚ) := by
    have hIq : (0 : ℚ) < (cfg.intervalMs : ℚ) := by exact_mod_cast hI
    have hrq : (0 : ℚ) < (cfg.refillRate : ℚ) := by exact_mod_cast hr
    have hx : ((x : ℚ) - t) < cfg.intervalMs := by
      have hc : (x : ℚ) < (t : ℚ) + (cfg.intervalMs : ℚ) := by exact_mod_cast h
      linarith
    have hdiv : ((x : ℚ) - t) / cfg.intervalMs < 1 := by
      rw [div_lt_one hIq]
      exact hx
    calc (((x : ℚ) - t) / cfg.intervalMs) * cfg.refillRate
        < 1 * cfg.refillRate := by
          exact mul_lt_mul_of_pos_right hdiv hrq
      _ = ((cfg.refillRate : ℤ) : ℚ) := by push_cast; ring
  have := Int.floor_lt.2 hlt
  simp only [refillAmount]
  omega

/-! ### Sliding-window admission bound

The potential `bucketPot cfg hi b lo` bounds how many tokens the bucket can
still hand out at access times in `[lo, hi]`: the clamped tokens available at
`lo` plus the refill credit that can still accrue before `hi`.
-/

/-- Potential of a bucket state for accesses in `[lo, hi]`. -/
def bucketPot (cfg : RateCfg) (hi : ℕ) (b : Bucket) (lo : ℕ) : ℚ :=
  min (cfg.capacity : ℚ) (b.tokens + (refillAmount cfg b.lastRefill lo : ℚ))
    + ((refillAmount cfg b.lastRefill hi : ℚ) - (refillAmount cfg b.lastRefill lo : ℚ))

lemma min_lipschitz {C x y : ℚ} (h : x ≤ y) : min C y ≤ min C x + (y - x) := by
  rcases le_total y C with hyC | hCy
  · rw [min_eq_right hyC, min_eq_right (le_trans h hyC)]
    linarith
  · rw [min_eq_left hCy]
    rcases le_total x C with hxC | hCx
    · rw [min_eq_right hxC]; linarith
    · rw [min_eq_left hCx]; linarith

lemma bucketPot_advance (cfg : RateCfg) (hi : ℕ) (b : Bucket) {lo t : ℕ} (h : lo ≤ t) :
    bucketPot cfg hi b t ≤ bucketPot cfg hi b lo := by
  have hm := refillAmount_mono cfg b.lastRefill h
  have hmq : ((refillAmount cfg b.lastRefill lo : ℤ) : ℚ)
      ≤ ((refillAmount cfg b.lastRefill t : ℤ) : ℚ) := by exact_mod_cast hm
  have hlip := min_lipschitz (C := (cfg.capacity : ℚ)) (add_le_add_left hmq b.tokens)
  simp only [bucketPot]
  linarith

lemma checkBucket_inv (cfg : RateCfg) (b : Bucket) (t : ℕ)
    (hlr : b.lastRefill ≤ t) (h0 : 0 ≤ b.tokens) (hC : b.tokens ≤ cfg.capacity) :
    0 ≤ (checkBucket cfg b t).1.tokens ∧ (checkBucket cfg b t).1.tokens ≤ cfg.capacity
      ∧ (checkBucket cfg b t).1.lastRefill ≤ t := by
  by_cases hadd : 0 < refillAmount cfg b.lastRefill t
  · have haddq : (0 : ℚ) ≤ ((refillAmount cfg b.lastRefill t : ℤ) : ℚ) := by
      exact_mod_cast le_of_lt hadd
    have hrb : refillBucket cfg b t
        = ⟨min (cfg.capacity : ℚ) (b.tokens + (refillAmount cfg b.lastRefill t : ℚ)), t⟩ := by
      simp [refillBucket, hadd]
    by_cases hcons :
        1 ≤ min (cfg.capacity : ℚ) (b.tokens + (refillAmount cfg b.lastRefill t : ℚ))
    · simp only [checkBucket, hrb, hcons, if_pos]
      refine ⟨by linarith, ?_, le_refl t⟩
      have := min_le_left (cfg.capacity : ℚ) (b.tokens + (refillAmount cfg b.lastRefill t : ℚ))
      linarith
    · simp only [checkBucket, hrb, hcons, if_neg, not_false_iff]
      refine ⟨?_, min_le_left _ _, le_refl t⟩
      exact le_min (by positivity) (by linarith)
  · have hrb : refillBucket cfg b t = b := by simp [refillBucket, hadd]
    by_cases hcons : 1 ≤ b.tokens
    · simp only [checkBucket, hrb, hcons, if_pos]
      exact ⟨by linarith, by linarith, hlr⟩
    · simp only [checkBucket, hrb, hcons, if_neg, not_false_iff]
      exact ⟨h0, hC, hlr⟩

lemma bucketPot_step (cfg : RateCfg) (hi : ℕ) (b : Bucket) (t : ℕ)
    (hlr : b.lastRefill ≤ t) (h0 : 0 ≤ b.tokens) (hC : b.tokens ≤ cfg.capacity) :
    (if (checkBucket cfg b t).2.allowed then (1 : ℚ) else 0)
        + bucketPot cfg hi (checkBucket cfg b t).1 t
      ≤ bucketPot cfg hi b t := by
  have hsuper := refillAmount_superadd cfg b.lastRefill t hi
  have hsuperq : ((refillAmount cfg t hi : ℤ) : ℚ) + ((refillAmount cfg b.lastRefill t : ℤ) : ℚ)
      ≤ ((refillAmount cfg b.lastRefill hi : ℤ) : ℚ) := by exact_mod_cast hsuper
  by_cases hadd : 0 < refillAmount cfg b.lastRefill t
  · have hrb : refillBucket cfg b t
        = ⟨min (cfg.capacity : ℚ) (b.tokens + (refillAmount cfg b.lastRefill t : ℚ)), t⟩ := by
      simp [refillBucket, hadd]
    have hmle := min_le_left (cfg.capacity : ℚ)
      (b.tokens + (refillAmount cfg b.lastRefill t : ℚ))
    by_cases hcons :
        1 ≤ min (cfg.capacity : ℚ) (b.tokens + (refillAmount cfg b.lastRefill t : ℚ))
    · simp only [checkBucket, hrb, hcons, if_pos]
      simp only [bucketPot, refillAmount_self, Int.cast_zero, add_zero, sub_zero]
      rw [min_eq_right (by linarith : min (cfg.capacity : ℚ)
        (b.tokens + (refillAmount cfg b.lastRefill t : ℚ)) - 1 ≤ (cfg.capacity : ℚ))]
      linarith
    · simp only [checkBucket, hrb, hcons, if_neg, not_false_iff]
      simp only [bucketPot, refillAmount_self, Int.cast_zero, add_zero, sub_zero,
        Bool.false_eq_true, if_false]
      rw [min_eq_right hmle]
      linarith
  · have haddz : refillAmount cfg b.lastRefill t = 0 := by
      have := refillAmount_nonneg cfg hlr
      omega
    have hrb : refillBucket cfg b t = b := by simp [refillBucket, hadd]
    by_cases hcons : 1 ≤ b.tokens
    · simp only [checkBucket, hrb, hcons, if_pos]
      simp only [bucketPot, haddz, Int.cast_zero, add_zero, sub_zero]
      rw [min_eq_right (by linarith : b.tokens - 1 ≤ (cfg.capacity : ℚ)),
        min_eq_right (by linarith : b.tokens ≤ (cfg.capacity : ℚ))]
      linarith
    · simp only [checkBucket, hrb, hcons, if_neg, not_false_iff]
      simp only [bucketPot, haddz, Int.cast_zero, add_zero, sub_zero,
        Bool.false_eq_true, if_false]
      linarith

lemma runCountB_le_pot (cfg : RateCfg) (hi : ℕ) (ts : List ℕ) :
    ∀ (b : Bucket) (lo : ℕ),
      0 ≤ b.tokens → b.tokens ≤ cfg.capacity → b.lastRefill ≤ lo → lo ≤ hi →
      ts.Sorted (· ≤ ·) → (∀ t ∈ ts, lo ≤ t) → (∀ t ∈ ts, t ≤ hi) →
      (runCountB cfg b ts : ℚ) ≤ bucketPot cfg hi b lo := by
  induction ts with
  | nil =>
    intro b lo h0 hC hlr hlohi _ _ _
    have hm := refillAmount_mono cfg b.lastRefill hlohi
    have hmq : ((refillAmount cfg b.lastRefill lo : ℤ) : ℚ)
        ≤ ((refillAmount cfg b.lastRefill hi : ℤ) : ℚ) := by exact_mod_cast hm
    have hnn := refillAmount_nonneg cfg hlr
    have hnnq : (0 : ℚ) ≤ ((refillAmount cfg b.lastRefill lo : ℤ) : ℚ) := by exact_mod_cast hnn
    have hminnn : (0 : ℚ) ≤ min (cfg.capacity : ℚ)
        (b.tokens + (refillAmount cfg b.lastRefill lo : ℚ)) :=
      le_min (by positivity) (by linarith)
    simp only [runCountB, bucketPot, Nat.cast_zero]
    linarith
  | cons t ts ih =>
    intro b lo h0 hC hlr hlohi hsort hlo hhi
    have hlot : lo ≤ t := hlo t (List.mem_cons_self t ts)
    have hthi : t ≤ hi := hhi t (List.mem_cons_self t ts)
    have hlrt : b.lastRefill ≤ t := le_trans hlr hlot
    have hinv := checkBucket_inv cfg b t hlrt h0 hC
    have hstep := bucketPot_step cfg hi b t hlrt h0 hC
    have hsort' : ts.Sorted (· ≤ ·) := (List.sorted_cons.1 hsort).2
    have hlo' : ∀ u ∈ ts, t ≤ u := (List.sorted_cons.1 hsort).1
    have hhi' : ∀ u ∈ ts, u ≤ hi := fun u hu => hhi u (List.mem_cons_of_mem t hu)
    have hIH := ih (checkBucket cfg b t).1 t hinv.1 hinv.2.1 hinv.2.2 hthi hsort' hlo' hhi'
    have hadv := bucketPot_advance cfg hi b hlot
    have hrun : runCountB cfg b (t :: ts)
        = (if (checkBucket cfg b t).2.allowed then 1 else 0)
          + runCountB cfg (checkBucket cfg b t).1 ts := rfl
    rw [hrun]
    push_cast
    cases hA : (checkBucket cfg b t).2.allowed with
    | true => simp only [hA, if_pos] at hstep ⊢; linarith
    | false => simp only [hA, if_neg, Bool.false_eq_true, not_false_iff] at hstep ⊢; linarith

/-- C1 (amended).  For every bucket configuration with positive refill rate and
interval, starting from any bucket state the algorithm maintains
(`0 ≤ tokens ≤ capacity`, `last_refill` not in the future), the number of
`allowed = true` results over accesses lying in any window `[T, T + intervalMs)`
is at most `capacity + refillRate`.  The bound `capacity` claimed by the
specification is refuted by `rate_limiter_window_counterexample` below: a full
bucket may be drained and then refilled strictly inside the same window. -/
theorem rate_limiter_sliding_window_bound (cfg : RateCfg)
    (hr : 0 < cfg.refillRate) (hI : 0 < cfg.intervalMs)
    (b : Bucket) (h0 : 0 ≤ b.tokens) (hC : b.tokens ≤ cfg.capacity)
    (ts : List ℕ) (hsort : ts.Sorted (· ≤ ·)) (hlr : ∀ t ∈ ts, b.lastRefill ≤ t)
    (T : ℕ) (hwin : ∀ t ∈ ts, T ≤ t ∧ t < T + cfg.intervalMs) :
    runCountB cfg b ts ≤ cfg.capacity + cfg.refillRate := by
  cases ts with
  | nil => simp [runCountB]
  | cons t0 rest =>
    set ts := t0 :: rest with hts
    set lo := max T b.lastRefill with hlo
    set hi := T + cfg.intervalMs - 1 with hhi
    have hlr0 : b.lastRefill ≤ lo := le_max_right _ _
    have hloev : ∀ t ∈ ts, lo ≤ t := by
      intro t ht
      exact max_le (hwin t ht).1 (hlr t ht)
    have hhiev : ∀ t ∈ ts, t ≤ hi := by
      intro t ht
      have := (hwin t ht).2
      omega
    have hlohi : lo ≤ hi := le_trans (hloev t0 (List.mem_cons_self t0 rest))
      (hhiev t0 (List.mem_cons_self t0 rest))
    have hpot := runCountB_le_pot cfg hi ts b lo h0 hC hlr0 hlohi hsort hloev hhiev
    have hminle : min (cfg.capacity : ℚ) (b.tokens + (refillAmount cfg b.lastRefill lo : ℚ))
        ≤ (cfg.capacity : ℚ) := min_le_left _ _
    have hsub := refillAmount_subadd cfg b.lastRefill lo hi
    have hrate : refillAmount cfg lo hi ≤ (cfg.refillRate : ℤ) - 1 := by
      apply refillAmount_lt_rate cfg hr hI
      omega
    have hgrow : refillAmount cfg b.lastRefill hi - refillAmount cfg b.lastRefill lo
        ≤ (cfg.refillRate : ℤ) := by omega
    have hgrowq : ((refillAmount cfg b.lastRefill hi : ℤ) : ℚ)
        - ((refillAmount cfg b.lastRefill lo : ℤ) : ℚ) ≤ ((cfg.refillRate : ℕ) : ℚ) := by
      exact_mod_cast hgrow
    have hq : (runCountB cfg b ts : ℚ) ≤ ((cfg.capacity : ℕ) : ℚ) + ((cfg.refillRate : ℕ) : ℚ) := by
      simp only [bucketPot] at hpot
      linarith
    exact_mod_cast hq

/-- C1 (counterexample to the claimed bound).  With the per-second bucket
(capacity 2, refill 2 per 1000 ms) initialized fresh at time 0, the accesses at
times 0, 0 and 500 — all inside the single window `[0, 1000)` of length
`intervalMs` — are all allowed: 3 grants exceed the capacity 2.  The same trace
refutes the claimed invariant `tokens + consumed-in-window ≤ capacity`. -/
theorem rate_limiter_window_counterexample :
    runBucketCount perSecondCfg none [0, 0, 500] = 3
      ∧ perSecondCfg.capacity < 3
      ∧ ∀ t ∈ [0, 0, 500], 0 ≤ t ∧ t < 0 + perSecondCfg.intervalMs := by
  refine ⟨?_, by norm_num [perSecondCfg], by decide⟩
  norm_num [runBucketCount, checkBucketInit, checkBucket, refillBucket, refillAmount,
    perSecondCfg]

/-- Witness for `rate_limiter_sliding_window_bound` at the per-second bucket,
the trace of the counterexample and window start 0. -/
theorem rate_limiter_sliding_window_bound_witness :
    runCountB perSecondCfg ⟨2, 0⟩ [0, 0, 500] ≤ perSecondCfg.capacity + perSecondCfg.refillRate :=
  rate_limiter_sliding_window_bound perSecondCfg (by norm_num [perSecondCfg])
    (by norm_num [perSecondCfg]) ⟨2, 0⟩ (by norm_num) (by norm_num [perSecondCfg])
    [0, 0, 500] (by decide) (by decide) 0 (by decide)

/-! ### The three-bucket acquire operation

Mirrors `acquireToken` in `src/src/utils/rateLimiter.js`: the three buckets are
checked sequentially (each check consumes independently, even after an earlier
denial); the request is allowed only if every bucket allowed it, and the
returned wait is the running maximum of the waits of the denied buckets
(starting from 0).
-/

/-- The three bucket configurations (`config.rateLimiting`). -/
structure RateLimiting where
  perSecond : RateCfg
  perMinute : RateCfg
  perHour : RateCfg

/-- Defaults from the config module: 2/s, 50/min, 300/hr. -/
def defaultRateLimiting : RateLimiting := ⟨perSecondCfg, perMinuteCfg, perHourCfg⟩

/-- The stored state of the three limiter keys. -/
structure LimiterState where
  perSecond : Option Bucket
  perMinute : Option Bucket
  perHour : Option Bucket
deriving DecidableEq

/-- The value returned by `acquireToken` (`bucketStates` keeps the three
per-bucket results, as in the source). -/
structure AcquireResult where
  allowed : Bool
  waitTimeMs : ℤ
  perSecondR : CheckResult
  perMinuteR : CheckResult
  perHourR : CheckResult
deriving DecidableEq

/-- `acquireToken`: sequential three-bucket check at time `t`. -/
def acquireToken (cfg : RateLimiting) (st : LimiterState) (t : ℕ) :
    LimiterState × AcquireResult :=
  let c1 := checkBucketInit cfg.perSecond st.perSecond t
  let c2 := checkBucketInit cfg.perMinute st.perMinute t
  let c3 := checkBucketInit cfg.perHour st.perHour t
  let m1 : ℤ := if c1.2.allowed then 0 else max 0 c1.2.waitTimeMs
  let m2 : ℤ := if c2.2.allowed then m1 else max m1 c2.2.waitTimeMs
  let m3 : ℤ := if c3.2.allowed then m2 else max m2 c3.2.waitTimeMs
  (⟨some c1.1, some c2.1, some c3.1⟩,
    ⟨c1.2.allowed && c2.2.allowed && c3.2.allowed, m3, c1.2, c2.2, c3.2⟩)

lemma refillAmount_eq_zero (cfg : RateCfg) {lr t : ℕ} (h1 : lr ≤ t)
    (h2 : (t - lr) * cfg.refillRate < cfg.intervalMs) :
    refillAmount cfg lr t = 0 := by
  have hI : 0 < cfg.intervalMs := by omega
  have hnn := refillAmount_nonneg cfg h1
  have hIq : (0 : ℚ) < (cfg.intervalMs : ℚ) := by exact_mod_cast hI
  have hlt : (((t : ℚ) - lr) / cfg.intervalMs) * cfg.refillRate < ((1 : ℤ) : ℚ) := by
    rw [div_mul_eq_mul_div, div_lt_iff hIq]
    have hc : ((t - lr : ℕ) : ℚ) * cfg.refillRate < cfg.intervalMs := by
      exact_mod_cast h2
    have hsub : ((t - lr : ℕ) : ℚ) = (t : ℚ) - lr := by
      push_cast [Nat.cast_sub h1]
      ring
    rw [hsub] at hc
    push_cast
    linarith
  have := Int.floor_lt.2 hlt
  simp only [refillAmount] at hnn ⊢
  omega

/-- The limiter state after two immediate acquires at time 0 from empty keys. -/
def stateAfterTwo : LimiterState :=
  (acquireToken defaultRateLimiting
    (acquireToken defaultRateLimiting ⟨none, none, none⟩ 0).1 0).1

lemma stateAfterTwo_eq :
    stateAfterTwo = ⟨some ⟨0, 0⟩, some ⟨48, 0⟩, some ⟨298, 0⟩⟩ := by
  norm_num [stateAfterTwo, acquireToken, checkBucketInit, checkBucket, refillBucket,
    refillAmount, defaultRateLimiting, perSecondCfg, perMinuteCfg, perHourCfg]

/-- C2.  `acquireToken` allows iff every one of the three buckets yields a
token; its wait is the maximum of the per-bucket waits (denied buckets
contribute their wait, allowed ones contribute 0); a denied bucket's wait is
`ceil((1 - tokens) / refill_rate * interval_ms)` over the refilled token count.
With the default buckets freshly initialized, two immediate acquires at t = 0
are allowed and a third acquire within the same second (any t ≤ 499 ms, before
the half-second refill) is denied with `waitTimeMs = 500`. -/
theorem acquireToken_spec :
    (∀ (cfg : RateLimiting) (st : LimiterState) (t : ℕ),
        (acquireToken cfg st t).2.allowed
          = ((acquireToken cfg st t).2.perSecondR.allowed
              && (acquireToken cfg st t).2.perMinuteR.allowed
              && (acquireToken cfg st t).2.perHourR.allowed))
    ∧ (∀ (cfg : RateLimiting) (st : LimiterState) (t : ℕ),
        (acquireToken cfg st t).2.waitTimeMs
          = max (max (max 0
              (if (acquireToken cfg st t).2.perSecondR.allowed then 0
                else (acquireToken cfg st t).2.perSecondR.waitTimeMs))
              (if (acquireToken cfg st t).2.perMinuteR.allowed then 0
                else (acquireToken cfg st t).2.perMinuteR.waitTimeMs))
              (if (acquireToken cfg st t).2.perHourR.allowed then 0
                else (acquireToken cfg st t).2.perHourR.waitTimeMs))
    ∧ (∀ (cfg : RateCfg) (b : Bucket) (t : ℕ),
        (checkBucket cfg b t).2.allowed = false →
        (checkBucket cfg b t).2.waitTimeMs
          = Int.ceil (((1 - (refillBucket cfg b t).tokens) / (cfg.refillRate : ℚ))
              * (cfg.intervalMs : ℚ)))
    ∧ (acquireToken defaultRateLimiting ⟨none, none, none⟩ 0).2.allowed = true
    ∧ (acquireToken defaultRateLimiting
          (acquireToken defaultRateLimiting ⟨none, none, none⟩ 0).1 0).2.allowed = true
    ∧ (∀ t : ℕ, t ≤ 499 →
        (acquireToken defaultRateLimiting stateAfterTwo t).2.allowed = false
          ∧ (acquireToken defaultRateLimiting stateAfterTwo t).2.waitTimeMs = 500) := by
  refine ⟨fun cfg st t => rfl, ?_, ?_, ?_, ?_, ?_⟩
  · intro cfg st t
    simp only [acquireToken]
    cases h1 : (checkBucketInit cfg.perSecond st.perSecond t).2.allowed <;>
      cases h2 : (checkBucketInit cfg.perMinute st.perMinute t).2.allowed <;>
        cases h3 : (checkBucketInit cfg.perHour st.perHour t).2.allowed <;>
          simp [h1, h2, h3] <;> omega
  · intro cfg b t h
    by_cases hc : 1 ≤ (refillBucket cfg b t).tokens
    · simp [checkBucket, hc] at h
    · simp [checkBucket, hc]
  · norm_num [acquireToken, checkBucketInit, checkBucket, refillBucket, refillAmount,
      defaultRateLimiting, perSecondCfg, perMinuteCfg, perHourCfg]
  · norm_num [acquireToken, checkBucketInit, checkBucket, refillBucket, refillAmount,
      defaultRateLimiting, perSecondCfg, perMinuteCfg, perHourCfg]
  · intro t ht
    have h1 : refillAmount perSecondCfg 0 t = 0 :=
      refillAmount_eq_zero _ (Nat.zero_le t) (by simp only [perSecondCfg]; omega)
    have h2 : refillAmount perMinuteCfg 0 t = 0 :=
      refillAmount_eq_zero _ (Nat.zero_le t) (by simp only [perMinuteCfg]; omega)
    have h3 : refillAmount perHourCfg 0 t = 0 :=
      refillAmount_eq_zero _ (Nat.zero_le t) (by simp only [perHourCfg]; omega)
    have hps : checkBucket perSecondCfg ⟨0, 0⟩ t = (⟨0, 0⟩, ⟨false, 0, 500⟩) := by
      simp only [checkBucket, refillBucket, h1]
      norm_num [perSecondCfg]
    have hpm : checkBucket perMinuteCfg ⟨48, 0⟩ t = (⟨47, 0⟩, ⟨true, 47, 0⟩) := by
      simp only [checkBucket, refillBucket, h2]
      norm_num
    have hph : checkBucket perHourCfg ⟨298, 0⟩ t = (⟨297, 0⟩, ⟨true, 297, 0⟩) := by
      simp only [checkBucket, refillBucket, h3]
      norm_num
    rw [stateAfterTwo_eq]
    refine ⟨?_, ?_⟩ <;>
      simp [acquireToken, checkBucketInit, defaultRateLimiting, hps, hpm, hph]

/-- Witness for `acquireToken_spec`: its universally quantified conjuncts
instantiated at t = 0 from the state after two immediate acquires. -/
theorem acquireToken_spec_witness :
    (acquireToken defaultRateLimiting stateAfterTwo 0).2.allowed = false
      ∧ (acquireToken defaultRateLimiting stateAfterTwo 0).2.waitTimeMs = 500 :=
  acquireToken_spec.2.2.2.2.2 0 (by norm_num)

/-! ### Analytics engine

Mirrors `src/src/services/analyticsService.js`.  NAV points carry an epoch-day
date (the code manipulates ISO `YYYY-MM-DD` strings through `Date`, whose
differences are exact whole days) and a rational NAV.
-/

/-- One NAV observation: `{date, nav}`. -/
structure NavPoint where
  date : ℕ
  nav : ℚ
deriving DecidableEq

/-- `calculatePercentile`: linear interpolation on a sorted sample.
Out-of-range indexing (impossible for `0 ≤ p ≤ 100`) is modelled by `getD _ 0`. -/
def calculatePercentile (sortedArray : List ℚ) (percentile : ℚ) : Option ℚ :=
  if sortedArray.length = 0 then none
  else if sortedArray.length = 1 then some (sortedArray.getD 0 0)
  else
    let index : ℚ := (percentile / 100) * ((sortedArray.length : ℚ) - 1)
    let lower := Int.floor index
    let upper := Int.ceil index
    let fraction := index - lower
    if lower = upper then some (sortedArray.getD lower.toNat 0)
    else some (sortedArray.getD lower.toNat 0 * (1 - fraction)
      + sortedArray.getD upper.toNat 0 * fraction)

/-- `calculateReturn`: simple return, null for a non-positive start NAV. -/
def calculateReturn (startNav endNav : ℚ) : Option ℚ :=
  if startNav ≤ 0 then none else some ((endNav - startNav) / startNav)

/-- The loop body of `calculateMaxDrawdown`: running peak and running minimum
drawdown over the whole history. -/
def maxDrawdownLoop (points : List NavPoint) (peak maxDrawdown : ℚ) : ℚ :=
  match points with
  | [] => maxDrawdown
  | p :: rest =>
    let peak' := if peak < p.nav then p.nav else peak
    let dd := (p.nav - peak') / peak'
    maxDrawdownLoop rest peak' (if dd < maxDrawdown then dd else maxDrawdown)

/-- `calculateMaxDrawdown`: null for histories shorter than 2 points, else the
single left-to-right sweep starting with the first NAV as peak. -/
def calculateMaxDrawdown (navHistory : List NavPoint) : Option ℚ :=
  if navHistory.length < 2 then none
  else
    match navHistory with
    | [] => none
    | p :: _ => some (maxDrawdownLoop navHistory p.nav 0)

/-- Specification-side drawdown sequence: at each point, `(nav - peak) / peak`
against the running peak (the peak is updated before the quotient, as in the
source). -/
def drawdownSeq (peak : ℚ) : List ℚ → List ℚ
  | [] => []
  | nav :: rest => ((nav - max peak nav) / max peak nav) :: drawdownSeq (max peak nav) rest

/-- Drawdown sequence of a NAV series (running peak seeded with the first NAV). -/
def drawdowns (navs : List ℚ) : List ℚ :=
  match navs with
  | [] => []
  | n :: _ => drawdownSeq n navs

/-- Lookup in the `navByDate` map (`Map.set` keeps the last write for a
duplicated date, hence the reverse search). -/
def findNavByDate (h : List NavPoint) (d : ℤ) : Option ℚ :=
  (h.reverse.find? fun p => decide ((p.date : ℤ) = d)).map NavPoint.nav

/-- Probe `d, d+1, …, d+5` and return the first NAV present (gap tolerance). -/
def probeNav (h : List NavPoint) (d : ℤ) : Option ℚ :=
  (List.range 6).findSome? fun off => findNavByDate h (d + (off : ℤ))

/-- `calculateRollingReturns`: for each point, the simple return against the
NAV found near `date - windowDays`; absent probes and null returns are dropped. -/
def calculateRollingReturns (h : List NavPoint) (windowDays : ℕ) : List ℚ :=
  h.filterMap fun p =>
    match probeNav h ((p.date : ℤ) - (windowDays : ℤ)) with
    | none => none
    | some pastNav => calculateReturn pastNav p.nav

/-- Growth ratios feeding `calculateRollingCAGRs`, with the same probing and
the same admissibility filter as `calculateCAGR` (null when `startNav ≤ 0` or
`years ≤ 0`).  The transcendental map `x ↦ x^(1/years) - 1` applied to each
ratio is strictly monotone and is irrelevant to every claim verified here, so
the ratios stand in for the CAGR values. -/
def rollingGrowthRatios (h : List NavPoint) (windowYears : ℕ) : List ℚ :=
  h.filterMap fun p =>
    match probeNav h ((p.date : ℤ) - ((windowYears * 365 : ℕ) : ℤ)) with
    | none => none
    | some pastNav =>
      if pastNav ≤ 0 ∨ windowYears = 0 then none else some (p.nav / pastNav)

/-- The analytics row produced for one `(scheme, window)`. -/
structure Analytics where
  rollingReturnMin : ℚ
  rollingReturnMax : ℚ
  rollingReturnMedian : Option ℚ
  rollingReturnP25 : Option ℚ
  rollingReturnP75 : Option ℚ
  maxDrawdown : Option ℚ
  cagrRatios : List ℚ
  dataStartDate : ℕ
  dataEndDate : ℕ
deriving DecidableEq

/-- `computeSchemeAnalytics` for one window: null when there is no history,
when `history_days < windowDays * 0.9`, or when no rolling returns exist. -/
def computeSchemeAnalytics (h : List NavPoint) (windowDays windowYears : ℕ) :
    Option Analytics :=
  if h.isEmpty then none
  else
    let first := h.headD ⟨0, 0⟩
    let last := h.getLastD ⟨0, 0⟩
    let historyDays : ℚ := (last.date : ℚ) - (first.date : ℚ)
    if historyDays < (windowDays : ℚ) * (9 / 10) then none
    else
      let rollingReturns := calculateRollingReturns h windowDays
      if rollingReturns.isEmpty then none
      else
        let sortedReturns := rollingReturns.insertionSort (· ≤ ·)
        some
          { rollingReturnMin := sortedReturns.headD 0
            rollingReturnMax := sortedReturns.getLastD 0
            rollingReturnMedian := calculatePercentile sortedReturns 50
            rollingReturnP25 := calculatePercentile sortedReturns 25
            rollingReturnP75 := calculatePercentile sortedReturns 75
            maxDrawdown := calculateMaxDrawdown h
            cagrRatios := rollingGrowthRatios h windowYears
            dataStartDate := first.date
            dataEndDate := last.date }

/-! ### Percentile (C5) -/

/-- C5.  `calculatePercentile` returns null on the empty sample, the single
element for `n = 1`, the linear interpolation
`a[floor(i)] * (1 - frac) + a[ceil(i)] * frac` at `i = p/100 * (n-1)` for
`n ≥ 2`, and `25` for the 50th percentile of `[10, 20, 30, 40]`. -/
theorem calculatePercentile_spec :
    (∀ p : ℚ, calculatePercentile [] p = none)
    ∧ (∀ x p : ℚ, calculatePercentile [x] p = some x)
    ∧ (∀ (l : List ℚ) (p : ℚ), 2 ≤ l.length →
        calculatePercentile l p
          = some (l.getD (Int.floor ((p / 100) * ((l.length : ℚ) - 1))).toNat 0
                * (1 - ((p / 100) * ((l.length : ℚ) - 1)
                    - Int.floor ((p / 100) * ((l.length : ℚ) - 1))))
              + l.getD (Int.ceil ((p / 100) * ((l.length : ℚ) - 1))).toNat 0
                * ((p / 100) * ((l.length : ℚ) - 1)
                    - Int.floor ((p / 100) * ((l.length : ℚ) - 1)))))
    ∧ calculatePercentile [10, 20, 30, 40] 50 = some 25 := by
  refine ⟨fun p => by simp [calculatePercentile], fun x p => by simp [calculatePercentile],
    ?_, ?_⟩
  · intro l p hl
    simp only [calculatePercentile]
    rw [if_neg (by omega), if_neg (by omega)]
    by_cases heq : Int.floor ((p / 100) * ((l.length : ℚ) - 1))
        = Int.ceil ((p / 100) * ((l.length : ℚ) - 1))
    · rw [if_pos heq]
      have hint : ((p / 100) * ((l.length : ℚ) - 1))
          = (Int.floor ((p / 100) * ((l.length : ℚ) - 1)) : ℚ) := by
        refine le_antisymm ?_ (Int.floor_le _)
        have hc := Int.le_ceil ((p / 100) * ((l.length : ℚ) - 1))
        rw [← heq] at hc
        exact_mod_cast hc
      have hfr : (p / 100) * ((l.length : ℚ) - 1)
          - (Int.floor ((p / 100) * ((l.length : ℚ) - 1)) : ℚ) = 0 := by
        rw [← hint]; ring
      rw [← heq, hfr]
      ring_nf
    · rw [if_neg heq]

  · have hceil : Int.ceil ((3 : ℚ) / 2) = 2 := by
      rw [Int.ceil_eq_iff]
      constructor <;> norm_num
    norm_num [calculatePercentile, hceil]
    norm_num [show Int.toNat 2 = 2 from rfl]

/-- Witness for `calculatePercentile_spec`: the interpolation formula
instantiated on the concrete sorted sample `[10, 20, 30, 40]` at p = 50. -/
theorem calculatePercentile_spec_witness :
    calculatePercentile [10, 20, 30, 40] 50
      = some (([10, 20, 30, 40] : List ℚ).getD
            (Int.floor (((50 : ℚ) / 100) * ((4 : ℚ) - 1))).toNat 0
          * (1 - (((50 : ℚ) / 100) * ((4 : ℚ) - 1)
              - Int.floor (((50 : ℚ) / 100) * ((4 : ℚ) - 1))))
        + ([10, 20, 30, 40] : List ℚ).getD
            (Int.ceil (((50 : ℚ) / 100) * ((4 : ℚ) - 1))).toNat 0
          * (((50 : ℚ) / 100) * ((4 : ℚ) - 1)
              - Int.floor (((50 : ℚ) / 100) * ((4 : ℚ) - 1)))) := by
  have h := calculatePercentile_spec.2.2.1 [10, 20, 30, 40] 50 (by norm_num)
  simpa using h

/-! ### Max drawdown (C3) -/

lemma foldl_min_le_init (a : ℚ) (l : List ℚ) : l.foldl min a ≤ a := by
  induction l generalizing a with
  | nil => exact le_refl a
  | cons b t ih => exact le_trans (ih (min a b)) (min_le_left a b)

lemma foldl_min_le_mem {x : ℚ} (a : ℚ) (l : List ℚ) (hx : x ∈ l) : l.foldl min a ≤ x := by
  induction l generalizing a with
  | nil => cases hx
  | cons b t ih =>
    rcases List.mem_cons.1 hx with hb | ht
    · subst hb
      exact le_trans (foldl_min_le_init (min a x) t) (min_le_right a x)
    · exact ih (min a b) ht

lemma foldl_min_mem (a : ℚ) (l : List ℚ) : l.foldl min a = a ∨ l.foldl min a ∈ l := by
  induction l generalizing a with
  | nil => exact Or.inl rfl
  | cons b t ih =>
    rcases ih (min a b) with h | h
    · rcases min_choice a b with hm | hm
      · exact Or.inl (by rw [List.foldl_cons, h, hm])
      · exact Or.inr (by rw [List.foldl_cons, h, hm]; exact List.mem_cons_self b t)
    · exact Or.inr (List.mem_cons_of_mem b h)

lemma ite_lt_eq_max (peak nav : ℚ) : (if peak < nav then nav else peak) = max peak nav := by
  rcases le_or_lt nav peak with h | h
  · rw [if_neg (not_lt.2 h), max_eq_left h]
  · rw [if_pos h, max_eq_right (le_of_lt h)]

lemma ite_lt_eq_min (dd m : ℚ) : (if dd < m then dd else m) = min m dd := by
  rcases le_or_lt m dd with h | h
  · rw [if_neg (not_lt.2 h), min_eq_left h]
  · rw [if_pos h, min_eq_right (le_of_lt h)]

lemma maxDrawdownLoop_eq_foldl (l : List NavPoint) :
    ∀ peak m, maxDrawdownLoop l peak m = (drawdownSeq peak (l.map NavPoint.nav)).foldl min m := by
  induction l with
  | nil => intro peak m; rfl
  | cons p t ih =>
    intro peak m
    show maxDrawdownLoop (p :: t) peak m = _
    simp only [maxDrawdownLoop, List.map_cons, drawdownSeq, List.foldl_cons]
    rw [ite_lt_eq_max, ite_lt_eq_min]
    exact ih (max peak p.nav) (min m ((p.nav - max peak p.nav) / max peak p.nav))

lemma drawdownSeq_head_zero (n : ℚ) (rest : List ℚ) :
    drawdownSeq n (n :: rest) = 0 :: drawdownSeq n rest := by
  simp [drawdownSeq, max_self, sub_self, zero_div]

lemma drawdownSeq_sorted_zero :
    ∀ (l : List ℚ) (peak : ℚ), l.Sorted (· ≤ ·) → (∀ x ∈ l, peak ≤ x) →
      drawdownSeq peak l = List.replicate l.length 0 := by
  intro l
  induction l with
  | nil => intro peak _ _; rfl
  | cons n t ih =>
    intro peak hs hp
    have hpn : peak ≤ n := hp n (List.mem_cons_self n t)
    have hmax : max peak n = n := max_eq_right hpn
    simp only [drawdownSeq, hmax, sub_self, zero_div, List.length_cons, List.replicate_succ]
    rw [ih n (List.sorted_cons.1 hs).2 (List.sorted_cons.1 hs).1]

lemma foldl_min_replicate_zero : ∀ k : ℕ, (List.replicate k (0 : ℚ)).foldl min 0 = 0 := by
  intro k
  induction k with
  | zero => rfl
  | succ k ih => simpa [List.replicate_succ, min_self] using ih

/-- Demo series for the drawdown-with-recovery scenario. -/
def demoSeries1 : List NavPoint := [⟨0, 100⟩, ⟨1, 110⟩, ⟨2, 95⟩, ⟨3, 88⟩, ⟨4, 105⟩]

/-- Demo series for the multiple-peaks scenario. -/
def demoSeries2 : List NavPoint := [⟨0, 100⟩, ⟨1, 90⟩, ⟨2, 95⟩, ⟨3, 110⟩, ⟨4, 77⟩, ⟨5, 100⟩]

/-- C3.  `calculateMaxDrawdown` sweeps left to right with a running peak and
returns the minimum of the per-point drawdowns `(nav - peak) / peak`; the
result is ≤ 0, it is 0 for every monotone non-decreasing series, and the demo
series yield -0.20 and -0.30. -/
theorem calculateMaxDrawdown_spec :
    (∀ h : List NavPoint, 2 ≤ h.length →
        ∃ m, calculateMaxDrawdown h = some m ∧ m ≤ 0
          ∧ (∀ d ∈ drawdowns (h.map NavPoint.nav), m ≤ d)
          ∧ m ∈ drawdowns (h.map NavPoint.nav))
    ∧ (∀ h : List NavPoint, 2 ≤ h.length → (h.map NavPoint.nav).Sorted (· ≤ ·) →
        calculateMaxDrawdown h = some 0)
    ∧ calculateMaxDrawdown demoSeries1 = some (-(1 / 5))
    ∧ calculateMaxDrawdown demoSeries2 = some (-(3 / 10)) := by
  refine ⟨?_, ?_, ?_, ?_⟩
  · intro h hlen
    obtain ⟨p, t, rfl⟩ : ∃ p t, h = p :: t := by
      cases h with
      | nil => simp at hlen
      | cons a b => exact ⟨a, b, rfl⟩
    simp only [List.length_cons] at hlen
    refine ⟨maxDrawdownLoop (p :: t) p.nav 0, ?_, ?_, ?_, ?_⟩
    · simp only [calculateMaxDrawdown]
      rw [if_neg (by simp only [List.length_cons]; omega)]
    · rw [maxDrawdownLoop_eq_foldl]
      exact foldl_min_le_init 0 _
    · intro d hd
      rw [maxDrawdownLoop_eq_foldl]
      apply foldl_min_le_mem
      simpa [drawdowns] using hd
    · rw [maxDrawdownLoop_eq_foldl]
      have hdd : drawdowns ((p :: t).map NavPoint.nav)
          = drawdownSeq p.nav ((p :: t).map NavPoint.nav) := by
        simp [drawdowns]
      rw [hdd]
      rcases foldl_min_mem 0 (drawdownSeq p.nav ((p :: t).map NavPoint.nav)) with h0 | hm
      · rw [h0, List.map_cons, drawdownSeq_head_zero]
        exact List.mem_cons_self 0 _
      · exact hm
  · intro h hlen hsort
    obtain ⟨p, t, rfl⟩ : ∃ p t, h = p :: t := by
      cases h with
      | nil => simp at hlen
      | cons a b => exact ⟨a, b, rfl⟩
    simp only [List.length_cons] at hlen
    simp only [calculateMaxDrawdown]
    rw [if_neg (by simp only [List.length_cons]; omega)]
    rw [maxDrawdownLoop_eq_foldl]
    rw [List.map_cons] at hsort ⊢
    have hz := drawdownSeq_sorted_zero (p.nav :: t.map NavPoint.nav) p.nav hsort ?_
    · rw [hz, foldl_min_replicate_zero]
    · intro x hx
      rcases List.mem_cons.1 hx with h1 | h2
      · exact le_of_eq h1.symm
      · exact (List.sorted_cons.1 hsort).1 x h2
  · norm_num [calculateMaxDrawdown, demoSeries1, maxDrawdownLoop]
  · norm_num [calculateMaxDrawdown, demoSeries2, maxDrawdownLoop]

/-- Witness for `calculateMaxDrawdown_spec`: its quantified conjuncts applied
to the concrete series `demoSeries1` and to a concrete rising series. -/
theorem calculateMaxDrawdown_spec_witness :
    (∃ m, calculateMaxDrawdown demoSeries1 = some m ∧ m ≤ 0
        ∧ (∀ d ∈ drawdowns (demoSeries1.map NavPoint.nav), m ≤ d)
        ∧ m ∈ drawdowns (demoSeries1.map NavPoint.nav))
      ∧ calculateMaxDrawdown [⟨0, 100⟩, ⟨1, 110⟩, ⟨2, 120⟩] = some 0 :=
  ⟨calculateMaxDrawdown_spec.1 demoSeries1 (by norm_num [demoSeries1]),
    calculateMaxDrawdown_spec.2.1 [⟨0, 100⟩, ⟨1, 110⟩, ⟨2, 120⟩] (by norm_num)
      (by norm_num [List.Sorted])⟩

/-! ### Sufficiency test and window skipping (C4) -/

/-- C4 (amended).  `computeSchemeAnalytics` produces nothing exactly when the
history is empty, or `history_days < windowDays * 0.9` (strict, so a history
spanning exactly `0.9 × W` days passes the sufficiency test), or the
rolling-return sample is empty.  The sufficiency test alone does not
characterize skipping. -/
theorem computeSchemeAnalytics_skip_iff (h : List NavPoint) (W Y : ℕ) :
    computeSchemeAnalytics h W Y = none ↔
      (h = []
        ∨ (((h.getLastD ⟨0, 0⟩).date : ℚ) - ((h.headD ⟨0, 0⟩).date : ℚ)
            < (W : ℚ) * (9 / 10))
        ∨ calculateRollingReturns h W = []) := by
  simp only [computeSchemeAnalytics]
  split_ifs with h1 h2 h3
  · simp_all [List.isEmpty_iff]
  · simp_all [List.isEmpty_iff]
  · simp_all [List.isEmpty_iff]
  · simp_all [List.isEmpty_iff]

/-- A two-point history spanning 329 days: more than `0.9 × 365 = 328.5` days
of history, yet it yields no rolling-return sample for the 1Y window. -/
def shortHistory : List NavPoint := [⟨0, 10⟩, ⟨329, 11⟩]

/-- C4 (counterexample).  `shortHistory` is skipped for the 1Y window even
though its `history_days = 329` is not below `0.9 × 365`: skipping is not
equivalent to failing the sufficiency inequality. -/
theorem computeSchemeAnalytics_skip_counterexample :
    computeSchemeAnalytics shortHistory 365 1 = none
      ∧ ¬(((shortHistory.getLastD ⟨0, 0⟩).date : ℚ) - ((shortHistory.headD ⟨0, 0⟩).date : ℚ)
          < (365 : ℚ) * (9 / 10))
      ∧ shortHistory ≠ [] := by
  refine ⟨?_, by norm_num [shortHistory], by simp [shortHistory]⟩
  have hrr : calculateRollingReturns shortHistory 365 = [] := by decide
  simp only [computeSchemeAnalytics]
  rw [if_neg (by decide), if_neg (by norm_num [shortHistory]), hrr]
  simp

/-! ### Route formatting of analytics fields (C10)

Mirrors the response formatting in `src/src/routes/funds.js`
(`GET /funds/:code/analytics` and the `formattedFunds` mapping of
`GET /funds/rank`): every numeric field goes through
`value ? parseFloat((parseFloat(value) * 100).toFixed(1)) : null`.
The analytics metrics are `DECIMAL(10,4)` columns and the mysql2 pool in the
DB connection module does not set `decimalNumbers`, so the driver delivers
them to the route as SQL NULL or as a decimal string such as `"0.0000"`: the
truthiness guard operates on a string, never on a number.
-/

/-- `Number.prototype.toFixed(1)` re-parsed: round to one decimal, ties toward
the larger value (ECMA-262 picks the larger candidate when two are equally
close). -/
def toFixed1 (x : ℚ) : ℚ := ((Int.floor (x * 10 + 1 / 2) : ℤ) : ℚ) / 10

/-- Numeric value of a digit string. -/
def natOfDigits (l : List Char) : ℕ := l.foldl (fun acc c => acc * 10 + (c.toNat - 48)) 0

/-- `parseFloat` on an unsigned decimal string: integer digits, an optional
point and fraction digits. -/
def parseUnsignedDec (cs : List Char) : ℚ :=
  let intPart := cs.takeWhile (fun c => c ≠ '.')
  let fracPart := (cs.dropWhile (fun c => c ≠ '.')).drop 1
  (natOfDigits intPart : ℚ) + (natOfDigits fracPart : ℚ) / ((10 : ℚ) ^ fracPart.length)

/-- `parseFloat` restricted to the decimal strings the driver emits: an
optional leading minus, then an unsigned decimal. -/
def parseDecimalStr (str : String) : ℚ :=
  match str.data with
  | '-' :: rest => -(parseUnsignedDec rest)
  | cs => parseUnsignedDec cs

/-- Zero-padding to the four fractional digits of a `DECIMAL(10,4)` cell. -/
def pad4 (n : ℕ) : String :=
  String.mk (List.replicate (4 - (toString n).length) '0') ++ toString n

/-- The string mysql2 returns for a stored `DECIMAL(10,4)` cell holding the
value `s / 10000`. -/
def decimal4 (s : ℤ) : String :=
  (if s < 0 then "-" else "") ++ toString (s.natAbs / 10000) ++ "." ++ pad4 (s.natAbs % 10000)

/-- JavaScript truthiness of the driver value reaching the ternary: `null` is
falsy; a string is truthy iff it is non-empty. -/
def strTruthy : Option String → Bool
  | none => false
  | some s => decide (s ≠ "")

/-- The per-field formatting of the funds routes applied to the driver value:
truthiness guard, then `parseFloat`, scale by 100, round to one decimal. -/
def formatMetricDb (v : Option String) : Option ℚ :=
  if strTruthy v then some (toFixed1 (parseDecimalStr (v.getD "") * 100)) else none

lemma decimal4_ne_empty (s : ℤ) : decimal4 s ≠ "" := by
  intro h
  have hd := congrArg String.data h
  simp only [decimal4, String.data_append, List.append_eq_nil] at hd
  have hdot : (("." : String).data = []) := hd.1.2
  exact absurd hdot (by decide)

lemma parseDecimalStr_zero : parseDecimalStr "0.0000" = 0 := by
  have h1 : parseDecimalStr "0.0000"
      = (natOfDigits ['0'] : ℚ) + (natOfDigits ['0', '0', '0', '0'] : ℚ)
        / ((10 : ℚ) ^ (['0', '0', '0', '0'] : List Char).length) := rfl
  have h2 : natOfDigits ['0'] = 0 := rfl
  have h3 : natOfDigits ['0', '0', '0', '0'] = 0 := rfl
  rw [h1, h2, h3]
  norm_num

/-- C10 (counterexample).  A stored analytics value of exactly 0 reaches the
route as the DECIMAL(10,4) string `"0.0000"`, which is a truthy JavaScript
value, so the field is served as the number 0 — not as null as the claim
states.  The zero max drawdown of a monotonically rising fund is such a
stored 0. -/
theorem format_zero_metric_counterexample :
    decimal4 0 = "0.0000"
      ∧ formatMetricDb (some (decimal4 0)) = some 0
      ∧ formatMetricDb (some (decimal4 0)) ≠ none
      ∧ calculateMaxDrawdown [⟨0, 100⟩, ⟨1, 110⟩, ⟨2, 120⟩] = some 0 := by
  have hstr : decimal4 0 = "0.0000" := by decide
  have ht : strTruthy (some "0.0000") = true := rfl
  have hfmt : formatMetricDb (some (decimal4 0)) = some 0 := by
    rw [hstr]
    simp only [formatMetricDb, ht, if_pos, Option.getD_some]
    rw [parseDecimalStr_zero]
    norm_num [toFixed1]
  refine ⟨hstr, hfmt, by rw [hfmt]; simp, ?_⟩
  norm_num [calculateMaxDrawdown, maxDrawdownLoop]

/-- C10 (amended).  Every analytics field passes the JavaScript truthiness
guard, but its operand is the driver string (mysql2 returns DECIMAL columns as
strings): a SQL NULL is served as null, and every present DECIMAL(10,4) value
— a stored 0 included — is a non-empty string, hence truthy, and is served as
the parsed value scaled by 100 and rounded to one decimal; a stored 0 is
served as 0, not null. -/
theorem format_metric_string_semantics :
    formatMetricDb none = none
      ∧ (∀ s : ℤ, formatMetricDb (some (decimal4 s))
          = some (toFixed1 (parseDecimalStr (decimal4 s) * 100)))
      ∧ formatMetricDb (some (decimal4 0)) = some 0 := by
  refine ⟨rfl, ?_, ?_⟩
  · intro s
    have hne := decimal4_ne_empty s
    simp [formatMetricDb, strTruthy, hne]
  · have hstr : decimal4 0 = "0.0000" := by decide
    have ht : strTruthy (some "0.0000") = true := rfl
    rw [hstr]
    simp only [formatMetricDb, ht, if_pos, Option.getD_some]
    rw [parseDecimalStr_zero]
    norm_num [toFixed1]

/-! ### Upstream response normalization (C6)

Mirrors `parseNavDate` / `normalizeSchemeData` in the MF API client: dates
arrive as `DD-MM-YYYY`, are re-assembled as ISO `YYYY-MM-DD`, NAV strings are
parsed to decimals, and the history is sorted ascending by the ISO date string
(`localeCompare`).  For zero-padded components the ISO string order coincides
with the numeric key `year * 10000 + month * 100 + day` used here.
-/

/-- A `DD-MM-YYYY` upstream date, by components. -/
structure UpDate where
  day : ℕ
  month : ℕ
  year : ℕ
deriving DecidableEq

/-- One raw upstream history entry `{date, nav}` (nav already parsed). -/
structure UpItem where
  date : UpDate
  nav : ℚ
deriving DecidableEq

/-- An ISO `YYYY-MM-DD` date, by components. -/
structure IsoDate where
  year : ℕ
  month : ℕ
  day : ℕ
deriving DecidableEq

/-- `parseNavDate`: `DD-MM-YYYY` → `YYYY-MM-DD` (component swap). -/
def parseNavDate (d : UpDate) : IsoDate := ⟨d.year, d.month, d.day⟩

/-- Numeric key realizing the lexicographic order of the ISO date string. -/
def isoKey (d : IsoDate) : ℕ := d.year * 10000 + d.month * 100 + d.day

/-- One normalized NAV-history entry. -/
structure NavEntry where
  date : IsoDate
  nav : ℚ
deriving DecidableEq

/-- The comparator of the normalization sort (`a.date.localeCompare(b.date)`). -/
def navEntryLE (a b : NavEntry) : Prop := isoKey a.date ≤ isoKey b.date

instance : DecidableRel navEntryLE := fun a b => Nat.decLe _ _

instance : IsTotal NavEntry navEntryLE := ⟨fun a b => Nat.le_total _ _⟩

instance : IsTrans NavEntry navEntryLE := ⟨fun _ _ _ => Nat.le_trans⟩

/-- Conversion of one upstream item: date reparsed, nav kept. -/
def convertItem (it : UpItem) : NavEntry := ⟨parseNavDate it.date, it.nav⟩

/-- `normalizeSchemeData`'s `navHistory`: map then sort ascending by date. -/
def normalizeNavHistory (data : List UpItem) : List NavEntry :=
  (data.map convertItem).insertionSort navEntryLE

lemma pairwise_conj {α : Type} {R S : α → α → Prop} :
    ∀ {l : List α}, l.Pairwise R → l.Pairwise S → l.Pairwise (fun a b => R a b ∧ S a b) := by
  intro l
  induction l with
  | nil => intro _ _; exact List.Pairwise.nil
  | cons a t ih =>
    intro hR hS
    rcases List.pairwise_cons.1 hR with ⟨hR1, hR2⟩
    rcases List.pairwise_cons.1 hS with ⟨hS1, hS2⟩
    exact List.pairwise_cons.2 ⟨fun b hb => ⟨hR1 b hb, hS1 b hb⟩, ih hR2 hS2⟩

lemma perm_pairwise_key_lt_eq {α : Type} (k : α → ℕ) :
    ∀ (l₁ l₂ : List α), l₁.Perm l₂ → l₁.Pairwise (fun a b => k a < k b) →
      l₂.Pairwise (fun a b => k a < k b) → l₁ = l₂ := by
  intro l₁
  induction l₁ with
  | nil =>
    intro l₂ hp _ _
    cases l₂ with
    | nil => rfl
    | cons b t₂ => simpa using hp.length_eq
  | cons a t₁ ih =>
    intro l₂ hp hp₁ hp₂
    cases l₂ with
    | nil => simpa using hp.length_eq
    | cons b t₂ =>
      by_cases hab : a = b
      · subst hab
        rw [ih t₂ hp.cons_inv (List.pairwise_cons.1 hp₁).2 (List.pairwise_cons.1 hp₂).2]
      · exfalso
        have ha2 : a ∈ b :: t₂ := hp.subset (List.mem_cons_self a t₁)
        have hat2 : a ∈ t₂ := by
          rcases List.mem_cons.1 ha2 with h | h
          · exact absurd h hab
          · exact h
        have hb1 : b ∈ a :: t₁ := hp.symm.subset (List.mem_cons_self b t₂)
        have hbt1 : b ∈ t₁ := by
          rcases List.mem_cons.1 hb1 with h | h
          · exact absurd h.symm hab
          · exact h
        have h1 : k a < k b := (List.pairwise_cons.1 hp₁).1 b hbt1
        have h2 : k b < k a := (List.pairwise_cons.1 hp₂).1 a hat2
        exact lt_asymm h1 h2

/-- C6.  For upstream data in strictly descending date order, the normalized
history equals the reversed upstream array (dates reparsed, NAVs kept) and is
in strictly ascending ISO-date order. -/
theorem normalizeNavHistory_spec (data : List UpItem)
    (hdesc : data.Pairwise
      (fun a b => isoKey (parseNavDate b.date) < isoKey (parseNavDate a.date))) :
    normalizeNavHistory data = (data.map convertItem).reverse
      ∧ (normalizeNavHistory data).Pairwise (fun a b => isoKey a.date < isoKey b.date) := by
  have hmap : (data.map convertItem).Pairwise (fun a b => isoKey b.date < isoKey a.date) :=
    hdesc.map convertItem (fun {a b} h => h)
  have hrev : (data.map convertItem).reverse.Pairwise
      (fun a b => isoKey a.date < isoKey b.date) := by
    rw [List.pairwise_reverse]
    exact hmap
  have hsorted : (normalizeNavHistory data).Pairwise navEntryLE :=
    List.sorted_insertionSort navEntryLE (data.map convertItem)
  have hperm : (normalizeNavHistory data).Perm (data.map convertItem) :=
    List.perm_insertionSort navEntryLE (data.map convertItem)
  have hne : (data.map convertItem).Pairwise (fun a b => isoKey a.date ≠ isoKey b.date) :=
    hmap.imp ne_of_gt
  have hneOut : (normalizeNavHistory data).Pairwise
      (fun a b => isoKey a.date ≠ isoKey b.date) :=
    (hperm.pairwise_iff (fun {a b} h => Ne.symm h)).2 hne
  have hstrict : (normalizeNavHistory data).Pairwise
      (fun a b => isoKey a.date < isoKey b.date) :=
    by
      have hc := pairwise_conj hsorted hneOut
      refine hc.imp ?_
      intro a b h
      obtain ⟨h1, h2⟩ := h
      exact lt_of_le_of_ne h1 h2
  refine ⟨?_, hstrict⟩
  apply perm_pairwise_key_lt_eq (fun e => isoKey e.date)
  · exact hperm.trans (List.reverse_perm _).symm
  · exact hstrict
  · exact hrev

/-- Witness for `normalizeNavHistory_spec`: a concrete three-entry descending
upstream response. -/
theorem normalizeNavHistory_spec_witness :
    normalizeNavHistory [⟨⟨3, 1, 2024⟩, 12⟩, ⟨⟨2, 1, 2024⟩, 11⟩, ⟨⟨1, 1, 2024⟩, 10⟩]
      = (([⟨⟨3, 1, 2024⟩, 12⟩, ⟨⟨2, 1, 2024⟩, 11⟩, ⟨⟨1, 1, 2024⟩, 10⟩] : List UpItem).map
          convertItem).reverse :=
  (normalizeNavHistory_spec _ (by decide)).1

/-! ### Backfill orchestrator and sync state (C7, C8)

Mirrors `src/src/services/backfillService.js` with the partial-update
semantics of `syncStateDao.update` (an UPDATE of only the supplied columns,
a no-op when the row is absent).  The upstream fetch (`getSchemeData`) is an
`Except String` oracle: an `error` models the exception raised during the
fetch (timestamps, the funds table and the NAV store are not observed by the
claims verified here; the NAV history written on success is
`normalizeNavHistory` of the oracle's raw data, as in the source).
-/

/-- Sync state status values. -/
inductive SyncStatus
  | pending
  | in_progress
  | completed
  | failed
deriving DecidableEq

/-- One `sync_state` row (backfill sync type). -/
structure SyncRecord where
  status : SyncStatus
  lastSyncedDate : Option IsoDate
  totalRecords : Option ℕ
  errorMessage : Option String
deriving DecidableEq

/-- A partial column update as assembled by `syncStateDao.update`: only the
supplied columns change. -/
structure SyncUpdates where
  status : Option SyncStatus
  lastSyncedDate : Option (Option IsoDate)
  totalRecords : Option (Option ℕ)
  errorMessage : Option (Option String)
deriving DecidableEq

/-- Apply a partial update to an existing row. -/
def applyUpdates (r : SyncRecord) (u : SyncUpdates) : SyncRecord :=
  ⟨u.status.getD r.status, u.lastSyncedDate.getD r.lastSyncedDate,
    u.totalRecords.getD r.totalRecords, u.errorMessage.getD r.errorMessage⟩

/-- The backfill sync-state table, keyed by scheme code. -/
def SyncDb : Type := String → Option SyncRecord

/-- `syncStateDao.update`: UPDATE of the row when present, no-op otherwise. -/
def updateSyncState (db : SyncDb) (code : String) (u : SyncUpdates) : SyncDb :=
  fun c => if c = code then (db code).map (fun r => applyUpdates r u) else db c

/-- The row created by `syncStateDao.create` with default status `pending`. -/
def freshSyncRecord : SyncRecord := ⟨SyncStatus.pending, none, none, none⟩

/-- `getSyncState`: read the row, creating a `pending` row when absent (the
fund upsert that precedes the creation touches only the funds table). -/
def getSyncState (db : SyncDb) (code : String) : SyncDb × SyncRecord :=
  match db code with
  | some r => (db, r)
  | none => (fun c => if c = code then some freshSyncRecord else db c, freshSyncRecord)

/-- The raw upstream response consumed by `backfillScheme` (its `data` array;
the `meta` fields only feed the funds-table upsert, which is not observed). -/
structure ApiResponse where
  data : List UpItem
deriving DecidableEq

/-- `backfillScheme`: transition to `in_progress` clearing the error, fetch,
then either complete with `last_synced_date` = last normalized date and
`total_records` = history length, or record the failure message.  Returns the
new table and the success flag. -/
def backfillScheme (fetch : String → Except String ApiResponse) (db : SyncDb)
    (code : String) : SyncDb × Bool :=
  let db1 := updateSyncState db code ⟨some SyncStatus.in_progress, none, none, some none⟩
  match fetch code with
  | Except.error msg =>
    (updateSyncState db1 code ⟨some SyncStatus.failed, none, none, some (some msg)⟩, false)
  | Except.ok api =>
    let navHistory := normalizeNavHistory api.data
    let endDate := navHistory.getLast?.map NavEntry.date
    (updateSyncState db1 code
      ⟨some SyncStatus.completed, some endDate, some (some navHistory.length), none⟩, true)

/-- `backfillAllSchemes`: sequential loop; a scheme whose (created-if-absent)
sync state is `completed` is skipped, every other scheme is processed through
`backfillScheme`.  Returns the final table, the `(completed, failed, skipped)`
counters and the codes that were actually processed. -/
def backfillAllSchemes (fetch : String → Except String ApiResponse) (db : SyncDb) :
    List String → SyncDb × (ℕ × ℕ × ℕ) × List String
  | [] => (db, (0, 0, 0), [])
  | code :: rest =>
    let g := getSyncState db code
    if g.2.status = SyncStatus.completed then
      let r := backfillAllSchemes fetch g.1 rest
      (r.1, (r.2.1.1, r.2.1.2.1, r.2.1.2.2 + 1), r.2.2)
    else
      let s := backfillScheme fetch g.1 code
      let r := backfillAllSchemes fetch s.1 rest
      (r.1, (r.2.1.1 + (if s.2 then 1 else 0), r.2.1.2.1 + (if s.2 then 0 else 1), r.2.1.2.2),
        code :: r.2.2)

/-- Status of a scheme as the loop would see it: `pending` when the row does
not exist yet. -/
def statusOf (db : SyncDb) (code : String) : SyncStatus :=
  match db code with
  | some r => r.status
  | none => SyncStatus.pending

lemma updateSyncState_other (db : SyncDb) (code : String) (u : SyncUpdates) {c : String}
    (h : c ≠ code) : updateSyncState db code u c = db c := by
  simp [updateSyncState, h]

lemma backfillScheme_other (fetch : String → Except String ApiResponse) (db : SyncDb)
    (code : String) {c : String} (h : c ≠ code) :
    (backfillScheme fetch db code).1 c = db c := by
  simp only [backfillScheme]
  cases fetch code with
  | error msg => simp [updateSyncState, h]
  | ok api => simp [updateSyncState, h]

lemma getSyncState_other (db : SyncDb) (code : String) {c : String} (h : c ≠ code) :
    (getSyncState db code).1 c = db c := by
  cases hdb : db code with
  | some r => simp [getSyncState, hdb]
  | none => simp [getSyncState, hdb, h]

lemma getSyncState_status (db : SyncDb) (code : String) :
    (getSyncState db code).2.status = statusOf db code := by
  cases hdb : db code with
  | some r => simp [getSyncState, statusOf, hdb]
  | none => simp [getSyncState, statusOf, hdb, freshSyncRecord]

lemma sorted_le_getLast :
    ∀ (l : List NavEntry), l.Pairwise navEntryLE →
      ∀ y, l.getLast? = some y → ∀ x ∈ l, isoKey x.date ≤ isoKey y.date := by
  intro l
  induction l with
  | nil => intro _ y hy; simp at hy
  | cons a t ih =>
    intro hs y hy x hx
    cases t with
    | nil =>
      simp at hy
      subst hy
      simp at hx
      subst hx
      exact le_refl _
    | cons b t' =>
      rw [List.getLast?_cons_cons] at hy
      rcases List.mem_cons.1 hx with h1 | h2
      · subst h1
        have hmem : y ∈ b :: t' := by
          have := List.getLast?_eq_getLast (b :: t') (by simp)
          rw [this] at hy
          have hyy : y = (b :: t').getLast (by simp) := by
            injection hy.symm
          rw [hyy]
          exact List.getLast_mem _
        exact (List.pairwise_cons.1 hs).1 y hmem
      · exact ih (List.pairwise_cons.1 hs).2 y hy x h2

/-- C8.  `backfillScheme`'s sync-state postcondition: on a successful fetch the
row becomes `completed` with `total_records` the length of the normalized
history and `last_synced_date` its last (that is, maximum) date; on a fetch
exception the row becomes `failed` carrying the exception message. -/
theorem backfillScheme_postcondition :
    (∀ (fetch : String → Except String ApiResponse) (db : SyncDb) (code : String)
        (api : ApiResponse) (r0 : SyncRecord),
        fetch code = Except.ok api → db code = some r0 →
        ∃ r, (backfillScheme fetch db code).1 code = some r
          ∧ r.status = SyncStatus.completed
          ∧ r.totalRecords = some (normalizeNavHistory api.data).length
          ∧ r.lastSyncedDate = (normalizeNavHistory api.data).getLast?.map NavEntry.date
          ∧ ∀ e ∈ normalizeNavHistory api.data, ∃ dmax,
              r.lastSyncedDate = some dmax ∧ isoKey e.date ≤ isoKey dmax)
    ∧ (∀ (fetch : String → Except String ApiResponse) (db : SyncDb) (code : String)
        (msg : String) (r0 : SyncRecord),
        fetch code = Except.error msg → db code = some r0 →
        ∃ r, (backfillScheme fetch db code).1 code = some r
          ∧ r.status = SyncStatus.failed ∧ r.errorMessage = some msg) := by
  constructor
  · intro fetch db code api r0 hf hdb
    simp only [backfillScheme, hf]
    refine ⟨applyUpdates (applyUpdates r0
        ⟨some SyncStatus.in_progress, none, none, some none⟩)
        ⟨some SyncStatus.completed,
          some ((normalizeNavHistory api.data).getLast?.map NavEntry.date),
          some (some (normalizeNavHistory api.data).length), none⟩,
      by simp [updateSyncState, hdb], rfl, rfl, rfl, ?_⟩
    intro e he
    have hne : normalizeNavHistory api.data ≠ [] := by
      intro hcontra
      rw [hcontra] at he
      cases he
    obtain ⟨y, hy⟩ : ∃ y, (normalizeNavHistory api.data).getLast? = some y := by
      cases hl : (normalizeNavHistory api.data).getLast? with
      | some y => exact ⟨y, rfl⟩
      | none => exact absurd (List.getLast?_eq_none_iff.1 hl) hne
    refine ⟨y.date, ?_, ?_⟩
    · simp [applyUpdates, hy]
    · exact sorted_le_getLast (normalizeNavHistory api.data)
        (List.sorted_insertionSort navEntryLE (api.data.map convertItem)) y hy e he
  · intro fetch db code msg r0 hf hdb
    simp only [backfillScheme, hf]
    exact ⟨applyUpdates (applyUpdates r0
        ⟨some SyncStatus.in_progress, none, none, some none⟩)
        ⟨some SyncStatus.failed, none, none, some (some msg)⟩,
      by simp [updateSyncState, hdb], rfl, rfl⟩

lemma statusOf_congr {db db' : SyncDb} {c : String} (h : db' c = db c) :
    statusOf db' c = statusOf db c := by
  simp [statusOf, h]

/-- Two-point upstream response used by the concrete backfill scenarios. -/
def demoApi : ApiResponse := ⟨[⟨⟨2, 1, 2024⟩, 11⟩, ⟨⟨1, 1, 2024⟩, 10⟩]⟩

/-- A fetch oracle that always succeeds with `demoApi`. -/
def demoFetchOk : String → Except String ApiResponse := fun _ => Except.ok demoApi

/-- A fetch oracle that always raises. -/
def demoFetchErr : String → Except String ApiResponse := fun _ => Except.error "boom"

/-- Sync-state table with S1 completed, S2 failed, S3 pending. -/
def demoSyncDb : SyncDb := fun c =>
  if c = "S1" then some ⟨SyncStatus.completed, none, none, none⟩
  else if c = "S2" then some ⟨SyncStatus.failed, none, none, none⟩
  else if c = "S3" then some freshSyncRecord
  else none

/-- C7.  `backfillAllSchemes` processes a scheme iff its sync-state status (a
missing row counting as `pending`) is not `completed`; completed schemes are
counted as skipped.  With sync states `[completed, failed, pending]` exactly
the two non-completed schemes are processed and one is skipped. -/
theorem backfillAllSchemes_resume :
    (∀ (fetch : String → Except String ApiResponse) (schemes : List String) (db : SyncDb),
        schemes.Nodup →
        (backfillAllSchemes fetch db schemes).2.2
            = schemes.filter (fun c => decide (statusOf db c ≠ SyncStatus.completed))
          ∧ (backfillAllSchemes fetch db schemes).2.1.2.2
            = (schemes.filter (fun c => decide (statusOf db c = SyncStatus.completed))).length)
    ∧ (backfillAllSchemes demoFetchOk demoSyncDb ["S1", "S2", "S3"]).2.2 = ["S2", "S3"]
    ∧ (backfillAllSchemes demoFetchOk demoSyncDb ["S1", "S2", "S3"]).2.1.2.2 = 1 := by
  refine ⟨?_, by decide, by decide⟩
  intro fetch schemes
  induction schemes with
  | nil => intro db _; simp [backfillAllSchemes]
  | cons code rest ih =>
    intro db hnd
    obtain ⟨hnotin, hnd'⟩ := List.nodup_cons.1 hnd
    have hframe1 : ∀ c ∈ rest, statusOf (getSyncState db code).1 c = statusOf db c := by
      intro c hcr
      exact statusOf_congr (getSyncState_other db code (fun hcc => hnotin (hcc ▸ hcr)))
    by_cases hc : statusOf db code = SyncStatus.completed
    · have hcond : (getSyncState db code).2.status = SyncStatus.completed := by
        rw [getSyncState_status]; exact hc
      have ihh := ih (getSyncState db code).1 hnd'
      simp only [backfillAllSchemes, hcond, if_pos]
      constructor
      · rw [ihh.1, List.filter_congr (fun c hcr => by rw [statusOf_congr
          (getSyncState_other db code (fun hcc => hnotin (hcc ▸ hcr)))])]
        rw [List.filter_cons_of_neg (by simpa using hc)]
      · rw [ihh.2, List.filter_congr (fun c hcr => by rw [statusOf_congr
          (getSyncState_other db code (fun hcc => hnotin (hcc ▸ hcr)))])]
        rw [List.filter_cons_of_pos (by simpa using hc), List.length_cons]
    · have hcond : ¬((getSyncState db code).2.status = SyncStatus.completed) := by
        rw [getSyncState_status]; exact hc
      have hframe2 : ∀ c ∈ rest,
          statusOf (backfillScheme fetch (getSyncState db code).1 code).1 c = statusOf db c := by
        intro c hcr
        have hne : c ≠ code := fun hcc => hnotin (hcc ▸ hcr)
        rw [statusOf_congr (backfillScheme_other fetch (getSyncState db code).1 code hne)]
        exact statusOf_congr (getSyncState_other db code hne)
      have ihh := ih (backfillScheme fetch (getSyncState db code).1 code).1 hnd'
      simp only [backfillAllSchemes, hcond, if_neg, not_false_iff]
      constructor
      · rw [ihh.1, List.filter_congr (fun c hcr => by rw [hframe2 c hcr])]
        rw [List.filter_cons_of_pos (by simpa using hc)]
      · rw [ihh.2, List.filter_congr (fun c hcr => by rw [hframe2 c hcr])]
        rw [List.filter_cons_of_neg (by simpa using hc)]

/-- Witness for `backfillAllSchemes_resume`: the processed-iff-not-completed
law applied to the concrete three-scheme table. -/
theorem backfillAllSchemes_resume_witness :
    (backfillAllSchemes demoFetchOk demoSyncDb ["S1", "S2", "S3"]).2.2
        = ["S1", "S2", "S3"].filter (fun c => decide (statusOf demoSyncDb c ≠ SyncStatus.completed))
      ∧ (backfillAllSchemes demoFetchOk demoSyncDb ["S1", "S2", "S3"]).2.1.2.2
        = (["S1", "S2", "S3"].filter
            (fun c => decide (statusOf demoSyncDb c = SyncStatus.completed))).length :=
  backfillAllSchemes_resume.1 demoFetchOk ["S1", "S2", "S3"] demoSyncDb (by decide)

/-- Witness for `backfillScheme_postcondition`: both branches applied to the
scheme S2 of the demo table, with the succeeding and the raising oracle. -/
theorem backfillScheme_postcondition_witness :
    (∃ r, (backfillScheme demoFetchOk demoSyncDb "S2").1 "S2" = some r
        ∧ r.status = SyncStatus.completed
        ∧ r.totalRecords = some (normalizeNavHistory demoApi.data).length
        ∧ r.lastSyncedDate = (normalizeNavHistory demoApi.data).getLast?.map NavEntry.date
        ∧ ∀ e ∈ normalizeNavHistory demoApi.data, ∃ dmax,
            r.lastSyncedDate = some dmax ∧ isoKey e.date ≤ isoKey dmax)
    ∧ (∃ r, (backfillScheme demoFetchErr demoSyncDb "S2").1 "S2" = some r
        ∧ r.status = SyncStatus.failed ∧ r.errorMessage = some "boom") :=
  ⟨backfillScheme_postcondition.1 demoFetchOk demoSyncDb "S2" demoApi
      ⟨SyncStatus.failed, none, none, none⟩ rfl (by decide),
    backfillScheme_postcondition.2 demoFetchErr demoSyncDb "S2" "boom"
      ⟨SyncStatus.failed, none, none, none⟩ rfl (by decide)⟩

/-! ### Fund ranking (C9)

Mirrors `rankByMetric` in `src/src/dao/fundsDao.js`.  The SQL sorts by a
single column — `rolling_return_median` (also the default), `max_drawdown` or
`cagr_median` — ascending exactly for `max_drawdown`, with `LIMIT`.  The SQL
`ORDER BY` fixes only the metric order: the relative order of rows with equal
metric values is unspecified, so the query denotes a relation between the
stored rows and the admissible outputs.  The `LIKE`-based category filter is
abstracted as a Boolean predicate. -/

/-- One joined row of the ranking query. -/
structure FundRow where
  schemeCode : String
  windowType : String
  rollingReturnMedian : Option ℚ
  maxDrawdown : Option ℚ
  cagrMedian : Option ℚ
deriving DecidableEq

/-- `sortColumnMap` with its default column. -/
def sortMetric (sortBy : String) (r : FundRow) : Option ℚ :=
  if sortBy = "max_drawdown" then r.maxDrawdown
  else if sortBy = "cagr_median" then r.cagrMedian
  else r.rollingReturnMedian

/-- `sortOrder`: ascending exactly for `max_drawdown`, else descending. -/
def sortAsc (sortBy : String) : Bool := sortBy = "max_drawdown"

/-- The ORDER BY comparison between two result rows (the WHERE clause has
already excluded null metrics, so the `getD` default never matters). -/
def rowOrdered (sortBy : String) (a b : FundRow) : Prop :=
  if sortAsc sortBy then (sortMetric sortBy a).getD 0 ≤ (sortMetric sortBy b).getD 0
  else (sortMetric sortBy b).getD 0 ≤ (sortMetric sortBy a).getD 0

instance : ∀ sortBy, DecidableRel (rowOrdered sortBy) := fun sortBy a b => by
  unfold rowOrdered
  infer_instance

/-- The WHERE clause: category match, window match, metric not null. -/
def rankFilter (window : String) (catMatch : FundRow → Bool) (sortBy : String)
    (r : FundRow) : Bool :=
  catMatch r && (r.windowType == window) && (sortMetric sortBy r).isSome

/-- The outputs the query may produce: a metric-ordered permutation of the
filtered rows truncated to the limit. -/
def rankOutputValid (sortBy window : String) (catMatch : FundRow → Bool) (lim : ℕ)
    (rows out : List FundRow) : Prop :=
  ∃ sortedAll : List FundRow,
    sortedAll.Perm (rows.filter (rankFilter window catMatch sortBy))
      ∧ sortedAll.Pairwise (rowOrdered sortBy)
      ∧ out = sortedAll.take lim

/-- Fund row A: median return 1, drawdown -1 (integer-valued metrics keep the
concrete evaluations kernel-reducible). -/
def rowA : FundRow := ⟨"A", "1Y", some 1, some (-1), some 1⟩

/-- Fund row B: the same median return 1, drawdown -2. -/
def rowB : FundRow := ⟨"B", "1Y", some 1, some (-2), some 1⟩

/-- C9 (counterexample).  Rows A and B tie on `median_return`, yet
`[B, A]` — which is not in `scheme_code` order — is an admissible output of
the ranking query: the single-key ORDER BY does not break ties by
`scheme_code`. -/
theorem rank_tie_not_broken_by_scheme_code :
    rankOutputValid "median_return" "1Y" (fun _ => true) 5 [rowA, rowB] [rowB, rowA]
      ∧ sortMetric "median_return" rowA = sortMetric "median_return" rowB
      ∧ ¬ List.Pairwise (fun x y : FundRow => x.schemeCode ≤ y.schemeCode) [rowB, rowA] := by
  refine ⟨⟨[rowB, rowA], ?_, ?_, rfl⟩, ?_, ?_⟩
  · have hfil : [rowA, rowB].filter (rankFilter "1Y" (fun _ => true) "median_return")
        = [rowA, rowB] := by decide
    rw [hfil]
    exact List.Perm.swap rowA rowB []
  · decide
  · decide
  · intro hp
    have h := (List.pairwise_cons.1 hp).1 rowA (List.mem_cons_self _ _)
    rw [show rowB.schemeCode = "B" from rfl, show rowA.schemeCode = "A" from rfl,
      String.le_iff_toList_le] at h
    exact absurd h (by decide)

/-- C9 (amended).  The ranking query sorts ascending exactly for
`max_drawdown` (descending for the return metrics, `median_return` included),
and every admissible output is ordered by the chosen metric; ties are left in
unspecified relative order. -/
theorem rankByMetric_order_spec :
    sortAsc "max_drawdown" = true
      ∧ sortAsc "median_return" = false
      ∧ sortAsc "cagr_median" = false
      ∧ (∀ (sortBy window : String) (catMatch : FundRow → Bool) (lim : ℕ)
          (rows out : List FundRow),
          rankOutputValid sortBy window catMatch lim rows out →
          out.Pairwise (rowOrdered sortBy)) := by
  refine ⟨rfl, by decide, by decide, ?_⟩
  intro sortBy window catMatch lim rows out hvalid
  obtain ⟨sortedAll, _, hsorted, hout⟩ := hvalid
  rw [hout]
  exact hsorted.sublist (List.take_sublist lim sortedAll)

/-- Witness for `rankByMetric_order_spec`: the sortedness law applied to a
concrete admissible output for the `max_drawdown` ranking of rows A and B. -/
theorem rankByMetric_order_spec_witness :
    ([rowB, rowA] : List FundRow).Pairwise (rowOrdered "max_drawdown") :=
  rankByMetric_order_spec.2.2.2 "max_drawdown" "1Y" (fun _ => true) 5 [rowA, rowB]
    [rowB, rowA] ⟨[rowB, rowA], by decide, by decide, rfl⟩
